import Mathlib

/-!
Verification of the image-difference pipeline in `app/services/image_diff.py`.

The pure algorithmic parts of the pipeline (rectangle merging, contour
filtering, alignment geometry, border-width reconciliation, the content-region
scan, annotation geometry, and error sequencing) are embedded as executable
Lean definitions, translated line by line from the Python source.  Library
image operations (cv2 decoding, blurring, thresholding, morphology, contour
extraction) are not re-implemented; where a property depends on them they
appear as explicit parameters or as hypotheses stating the guarantees those
operations provide (for example, `cv2.boundingRect` of a contour of an image
always lies inside that image).

Floating-point comparisons in the source (`w < width * 0.8`,
`region_height > height * 0.15`, `ratio > 0.5`, `aspect_ratio >= 0.6`) are
embedded as exact rational comparisons on integers (`5*w < 4*width`,
`20*len > 3*height`, `2*min > max`, `5*min >= 3*max`).  For the integer
operand ranges involved (image dimensions far below 2^40) the IEEE-754
double evaluation in Python decides exactly the same predicate: the relative
rounding error (about 2^-53) is far smaller than the distance from any
non-boundary operand to the threshold, and at the exact boundary the rounded
product/quotient coincides with the exact rational value.
-/

/-- Rectangle `(x, y, width, height)` with integer pixel coordinates
(Python integers are unbounded, and padding expansion may go negative,
so the fields are `Int`). -/
structure Rect where
  x : Int
  y : Int
  w : Int
  h : Int
deriving DecidableEq

/-- Expansion step of `merge_overlapping_regions`:
`(x - padding, y - padding, w + 2*padding, h + 2*padding)`. -/
def expandRect (p : Int) (r : Rect) : Rect :=
  ⟨r.x - p, r.y - p, r.w + 2 * p, r.h + 2 * p⟩

/-- Shrink-back step of `merge_overlapping_regions`:
`(x + padding, y + padding, w - 2*padding, h - 2*padding)`. -/
def shrinkRect (p : Int) (r : Rect) : Rect :=
  ⟨r.x + p, r.y + p, r.w - 2 * p, r.h - 2 * p⟩

/-- Overlap test from `merge_overlapping_regions`:
`x1 < x2 + w2 and x1 + w1 > x2 and y1 < y2 + h2 and y1 + h1 > y2`. -/
def rectsOverlap (a b : Rect) : Bool :=
  decide (a.x < b.x + b.w) && decide (a.x + a.w > b.x) &&
  decide (a.y < b.y + b.h) && decide (a.y + a.h > b.y)

/-- In-place merge update from `merge_overlapping_regions`, translated
statement by statement.  Note that the source reassigns `x1 = min(x1, x2)`
and `y1 = min(y1, y2)` BEFORE computing
`w1 = max(x1 + w1, x2 + w2) - x1` and `h1 = max(y1 + h1, y2 + h2) - y1`,
so the right/bottom edges are computed from the already-moved origin. -/
def mergeTwo (a b : Rect) : Rect :=
  let x := min a.x b.x
  let y := min a.y b.y
  ⟨x, y, max (x + a.w) (b.x + b.w) - x, max (y + a.h) (b.y + b.h) - y⟩

/-- Modelled from the spec: the bounding union of two rectangles, the
smallest axis-aligned rectangle containing both (what §4.5 says a merge
produces).  Used to compare the code's `mergeTwo` against the spec. -/
def boundingUnion (a b : Rect) : Rect :=
  ⟨min a.x b.x, min a.y b.y,
   max (a.x + a.w) (b.x + b.w) - min a.x b.x,
   max (a.y + a.h) (b.y + b.h) - min a.y b.y⟩

/-- Inner `for j` loop of one merge pass: scan the remaining rectangles in
order, absorbing each one that overlaps the accumulator (which grows as it
absorbs) and keeping the others in place.  Returns the grown accumulator,
the surviving remainder, and whether any merge happened. -/
def absorb (r : Rect) : List Rect → Rect × List Rect × Bool
  | [] => (r, [], false)
  | s :: rest =>
    if rectsOverlap r s then
      let res := absorb (mergeTwo r s) rest
      (res.1, res.2.1, true)
    else
      let res := absorb r rest
      (res.1, s :: res.2.1, res.2.2)

/-- One full pass of the merge loop (`for i` loop with the `used` array):
each not-yet-consumed rectangle absorbs everything after it that overlaps.
The fuel argument only serves to make the recursion structural; `mergePass`
always supplies the list length, which the recursion never exhausts because
`absorb` never lengthens the remainder (`absorb_rest_length`). -/
def mergePassAux : Nat → List Rect → List Rect × Bool
  | _, [] => ([], false)
  | 0, l => (l, false)
  | fuel + 1, r :: rest =>
    let a := absorb r rest
    let res := mergePassAux fuel a.2.1
    (a.1 :: res.1, a.2.2 || res.2)

/-- One pass over the current rectangle list, as in the `while changed` body. -/
def mergePass (l : List Rect) : List Rect × Bool := mergePassAux l.length l

/-- The `while changed` loop: repeat passes until a pass makes no merge.
Fuel `l.length` suffices because every merging pass strictly shortens the
list (`mergeLoopAux_fixed` certifies the fixed point is reached). -/
def mergeLoopAux : Nat → List Rect → List Rect
  | 0, l => l
  | fuel + 1, l =>
    let res := mergePass l
    if res.2 then mergeLoopAux fuel res.1 else res.1

/-- Translation of `merge_overlapping_regions(regions, padding=20)`:
expand all rectangles by `padding`, merge to a fixed point, shrink back. -/
def merge_overlapping_regions (regions : List Rect) (padding : Int) : List Rect :=
  if regions.isEmpty then []
  else
    (mergeLoopAux regions.length (regions.map (expandRect padding))).map
      (shrinkRect padding)

/-- A contour as it reaches the filtering loop of `find_differences`:
its `cv2.contourArea` and its `cv2.boundingRect`.  Areas at the boundaries
the spec talks about are integers, so the area is carried as an `Int`. -/
structure Contour where
  area : Int
  rect : Rect
deriving DecidableEq

/-- Keep condition of the `find_differences` contour loop:
`area >= min_area` and `w < img.shape[1] * 0.8 and h < img.shape[0] * 0.8`
(the 0.8 comparison embedded exactly as `5*w < 4*width`). -/
def keepContour (imgW imgH minArea : Int) (c : Contour) : Bool :=
  decide (minArea ≤ c.area) &&
  (decide (5 * c.rect.w < 4 * imgW) && decide (5 * c.rect.h < 4 * imgH))

/-- The `differences` list built by the contour loop of `find_differences`
before merging: bounding rectangles of the contours that pass the filter. -/
def contourFilter (imgW imgH minArea : Int) (cs : List Contour) : List Rect :=
  (cs.filter (keepContour imgW imgH minArea)).map Contour.rect

/-- Tail of `find_differences` after the cv2 image processing: the contour
filter followed by `merge_overlapping_regions(differences)` with the default
padding 20.  The upstream cv2 stages (absdiff, blur, threshold, morphology,
findContours) enter as the contour list argument. -/
def find_differences_post (imgW imgH minArea : Int) (cs : List Contour) : List Rect :=
  merge_overlapping_regions (contourFilter imgW imgH minArea cs) 20

/-- Being a well-formed rectangle of a `W × H` image: positive size, fully
inside the image (the Rectangle invariant of the spec's data model). -/
def rectInBounds (W H : Int) (r : Rect) : Prop :=
  0 ≤ r.x ∧ 0 ≤ r.y ∧ 0 < r.w ∧ 0 < r.h ∧ r.x + r.w ≤ W ∧ r.y + r.h ≤ H

instance (W H : Int) (r : Rect) : Decidable (rectInBounds W H r) := by
  unfold rectInBounds; infer_instance

/-- An image buffer: a height, a width, and a pixel function (BGR triple).
Only the geometry matters for the claims below. -/
structure Image where
  h : Nat
  w : Nat
  pix : Nat → Nat → Nat × Nat × Nat

/-- Numpy-style slice `img[y0 : y0+th, x0 : x0+tw]`, with numpy's clamping
of out-of-range bounds. -/
def sliceImage (img : Image) (y0 th x0 tw : Nat) : Image :=
  ⟨min th (img.h - y0), min tw (img.w - x0), fun y x => img.pix (y0 + y) (x0 + x)⟩

/-- The `center_crop` helper inside `align_images`:
`start = (size - target) // 2`, then a `target`-sized slice. -/
def center_crop (img : Image) (th tw : Nat) : Image :=
  sliceImage img ((img.h - th) / 2) th ((img.w - tw) / 2) tw

/-- Translation of `align_images`: center-crop both images to the shared
minimum height and width. -/
def align_images (img1 img2 : Image) : Image × Image :=
  (center_crop img1 (min img1.h img2.h) (min img1.w img2.w),
   center_crop img2 (min img1.h img2.h) (min img1.w img2.w))

/-- The `get_unified_crop` closure of `crop_image_borders_unified`,
reconciling one side's two detected border widths.  The float test
`min(v1,v2)/max(v1,v2) > 0.5` is embedded exactly as `max < 2*min`;
Python `// 2` on naturals is `Nat` division. -/
def get_unified_crop (v1 v2 : Nat) : Nat :=
  if v1 = 0 ∧ v2 = 0 then 0
  else if 0 < v1 ∧ 0 < v2 then
    if max v1 v2 < 2 * min v1 v2 then min v1 v2 else max v1 v2 / 2
  else max v1 v2

/-- Circle-center x coordinate in `draw_differences`: `x + w // 2`
(Python floor division). -/
def drawCenterX (r : Rect) : Int := r.x + Int.fdiv r.w 2

/-- Circle-center y coordinate in `draw_differences`: `y + h // 2`. -/
def drawCenterY (r : Rect) : Int := r.y + Int.fdiv r.h 2

/-- Near-square test of `draw_differences` with the default threshold 0.6:
`min(w,h)/max(w,h) >= 0.6` when `max(w,h) > 0`, else ratio 1 (near-square).
The float comparison is embedded exactly as `3*max <= 5*min`. -/
def isNearSquareRegion (r : Rect) : Bool :=
  if 0 < max r.w r.h then decide (3 * max r.w r.h ≤ 5 * min r.w r.h) else true

/-- Distance from the region's center to the nearest image edge minus the
5px safety gap: `min(center_x, center_y, W - center_x, H - center_y) - 5`. -/
def edgeClearance (W H : Int) (r : Rect) : Int :=
  min (min (drawCenterX r) (drawCenterY r))
      (min (W - drawCenterX r) (H - drawCenterY r)) - 5

/-- Final circle radius of `draw_differences` for a near-square region:
`radius = max(w,h) // 2 + 15`, clamped above by the edge clearance, then
clamped below by 20 (in that order, as in the source). -/
def circleRadius (W H : Int) (r : Rect) : Int :=
  max (min (Int.fdiv (max r.w r.h) 2 + 15) (edgeClearance W H r)) 20

/-- The one distinct error of the pipeline: undecodable input bytes
(`ValueError("无法解码图片数据")` in `load_image_from_bytes`). -/
inductive DiffError where
  | invalidImage
deriving DecidableEq

/-- Translation of `load_image_from_bytes`: decode (the cv2 decoder enters
as the `decode` parameter), raise the invalid-image error when the decoder
yields nothing. -/
def load_image_from_bytes (decode : List Nat → Option Image)
    (imageBytes : List Nat) : Except DiffError Image :=
  match decode imageBytes with
  | none => Except.error DiffError.invalidImage
  | some img => Except.ok img

/-- Translation of the stage sequencing of `process_screenshot`: load the
screenshot first (propagating its error), then split, detect, align and
assemble the metadata.  The cv2-dependent stages `extract_game_images` and
`find_differences` enter as parameters; alignment is the embedded
`align_images`.  The rendering branch adds no further failure point before
these stages and is elided. -/
def process_screenshot (decode : List Nat → Option Image)
    (extract : Image → Image × Image)
    (detect : Image → Image → List Rect)
    (imageBytes : List Nat) : Except DiffError (List Rect × Nat × Nat) :=
  match load_image_from_bytes decode imageBytes with
  | Except.error e => Except.error e
  | Except.ok screenshot =>
    let imgs := extract screenshot
    let diffs := detect imgs.1 imgs.2
    let aligned := align_images imgs.1 imgs.2
    Except.ok (diffs, (aligned.1).w, (aligned.1).h)

/-- Translation of the stage sequencing of `save_result_images`: same load /
split / detect / align pipeline as `process_screenshot` (the directory
creation and the four `cv2.imwrite` calls are file-system effects outside
the embedding and produce no result images before the load either). -/
def save_result_images (decode : List Nat → Option Image)
    (extract : Image → Image × Image)
    (detect : Image → Image → List Rect)
    (imageBytes : List Nat) : Except DiffError (List Rect × Nat × Nat) :=
  match load_image_from_bytes decode imageBytes with
  | Except.error e => Except.error e
  | Except.ok screenshot =>
    let imgs := extract screenshot
    let diffs := detect imgs.1 imgs.2
    let aligned := align_images imgs.1 imgs.2
    Except.ok (diffs, (aligned.1).w, (aligned.1).h)

/-- Run-length filter of the content-region scan in `extract_game_images`:
`region_height > height * 0.15`, embedded exactly as `3*height < 20*len`. -/
def regionKeep (height len : Nat) : Bool := decide (3 * height < 20 * len)

/-- Row state machine of `extract_game_images` (the `for y in range(height)`
loop plus the final flush): `inC`/`start` are `in_content`/`content_start`,
`y` the current row, and the list argument the per-row content flags still
to be scanned. -/
def scanRegions (height : Nat) : List Bool → Nat → Bool → Nat → List (Nat × Nat)
  | [], _, inC, start =>
    if inC && regionKeep height (height - start) then [(start, height)] else []
  | b :: rest, y, inC, start =>
    if b && !inC then scanRegions height rest (y + 1) true y
    else if !b && inC then
      (if regionKeep height (y - start) then [(start, y)] else []) ++
        scanRegions height rest (y + 1) false start
    else scanRegions height rest (y + 1) inC start

/-- Content regions recorded by `extract_game_images` for a given per-row
content classification (`row_variance_smooth[y] > var_threshold`). -/
def content_regions (rows : List Bool) : List (Nat × Nat) :=
  scanRegions rows.length rows 0 false 0

/-- A maximal run of consecutive content rows `[s, e)` in the
classification list. -/
def isMaxRun (rows : List Bool) (s e : Nat) : Prop :=
  s < e ∧ e ≤ rows.length ∧
  (∀ i, i < e → s ≤ i → rows.getD i false = true) ∧
  (s = 0 ∨ rows.getD (s - 1) true = false) ∧
  (e = rows.length ∨ rows.getD e true = false)

instance (rows : List Bool) (s e : Nat) : Decidable (isMaxRun rows s e) := by
  unfold isMaxRun; infer_instance

/- ===================== theorems ===================== -/

theorem shrink_expand (p : Int) (r : Rect) : shrinkRect p (expandRect p r) = r := by
  simp [shrinkRect, expandRect]

/-- C4: `align_images` center-crops both inputs to width `min w1 w2` and
height `min h1 h2`, so the two outputs have identical dimensions, and every
output pixel is an input pixel at the fixed center offset (no resampling). -/
theorem c4_align_images_center_crop (img1 img2 : Image) :
    ((align_images img1 img2).1.h = min img1.h img2.h ∧
     (align_images img1 img2).1.w = min img1.w img2.w ∧
     (align_images img1 img2).2.h = min img1.h img2.h ∧
     (align_images img1 img2).2.w = min img1.w img2.w) ∧
    (∀ y x, (align_images img1 img2).1.pix y x =
      img1.pix ((img1.h - min img1.h img2.h) / 2 + y)
               ((img1.w - min img1.w img2.w) / 2 + x)) ∧
    (∀ y x, (align_images img1 img2).2.pix y x =
      img2.pix ((img2.h - min img1.h img2.h) / 2 + y)
               ((img2.w - min img1.w img2.w) / 2 + x)) := by
  constructor
  · refine ⟨?_, ?_, ?_, ?_⟩ <;> (simp only [align_images, center_crop, sliceImage]; omega)
  · exact ⟨fun y x => rfl, fun y x => rfl⟩

/-- C1 (failing input): the expanded forms of `(10,0,5,5)` and `(0,0,5,5)`
overlap, their bounding union is `(0,0,15,5)`, yet
`merge_overlapping_regions` returns `[(0,0,5,5)]`: because `x1` is
reassigned to `min(x1,x2)` before `w1 = max(x1+w1, x2+w2) - x1` is
computed, the merged rectangle loses the area of the first rectangle
whenever the absorbed one starts further left (or, via `y1`, further up). -/
theorem c1_merge_not_bounding_union :
    rectsOverlap (expandRect 20 ⟨10, 0, 5, 5⟩) (expandRect 20 ⟨0, 0, 5, 5⟩) = true ∧
    boundingUnion ⟨10, 0, 5, 5⟩ ⟨0, 0, 5, 5⟩ = ⟨0, 0, 15, 5⟩ ∧
    merge_overlapping_regions [⟨10, 0, 5, 5⟩, ⟨0, 0, 5, 5⟩] 20 = [⟨0, 0, 5, 5⟩] := by
  decide

/-- C3: among contours passing the 80% size cap, the filter of
`find_differences` reports a contour exactly when its area is at least
`min_area`; in particular area `min_area - 1` is excluded and area
`min_area` is included. -/
theorem c3_min_area_boundary (imgW imgH minArea : Int) (c : Contour)
    (hw : 5 * c.rect.w < 4 * imgW) (hh : 5 * c.rect.h < 4 * imgH) :
    (c.rect ∈ contourFilter imgW imgH minArea [c] ↔ minArea ≤ c.area) ∧
    keepContour imgW imgH minArea ⟨minArea - 1, c.rect⟩ = false ∧
    keepContour imgW imgH minArea ⟨minArea, c.rect⟩ = true := by
  have hk : keepContour imgW imgH minArea c = decide (minArea ≤ c.area) := by
    simp [keepContour, hw, hh]
  refine ⟨?_, by simp [keepContour], by simp [keepContour, hw, hh]⟩
  unfold contourFilter
  by_cases h : minArea ≤ c.area <;> simp [hk, h]

theorem c3_min_area_boundary_witness :
    (5 * (10 : Int) < 4 * 100) ∧
    ((⟨1, 1, 10, 10⟩ : Rect) ∈ contourFilter 100 100 50 [⟨50, ⟨1, 1, 10, 10⟩⟩]) ∧
    keepContour 100 100 50 ⟨49, ⟨1, 1, 10, 10⟩⟩ = false ∧
    keepContour 100 100 50 ⟨50, ⟨1, 1, 10, 10⟩⟩ = true :=
  ⟨by decide,
   ((c3_min_area_boundary 100 100 50 ⟨50, ⟨1, 1, 10, 10⟩⟩ (by decide) (by decide)).1).mpr
     (by decide),
   (c3_min_area_boundary 100 100 50 ⟨49, ⟨1, 1, 10, 10⟩⟩ (by decide) (by decide)).2.1,
   (c3_min_area_boundary 100 100 50 ⟨50, ⟨1, 1, 10, 10⟩⟩ (by decide) (by decide)).2.2⟩

/-- C5 (counterexample): in a 10-wide image, a contour of width 8 — exactly
80% of the image width, hence not exceeding it — with area above `min_area`
is nevertheless rejected, because the source tests `w < width * 0.8`
strictly. -/
theorem c5_exact_eighty_percent_excluded :
    (5 * (8 : Int) = 4 * 10) ∧ ((1 : Int) ≤ 5) ∧
    keepContour 10 10 1 ⟨5, ⟨0, 0, 8, 4⟩⟩ = false := by
  decide

/-- C5 (amended): among contours meeting the area bound, the filter keeps a
contour exactly when both bounding-rectangle dimensions are strictly less
than 80% of the corresponding image dimension. -/
theorem c5_size_cap_strict (imgW imgH minArea : Int) (c : Contour)
    (ha : minArea ≤ c.area) :
    keepContour imgW imgH minArea c = true ↔
      (5 * c.rect.w < 4 * imgW ∧ 5 * c.rect.h < 4 * imgH) := by
  simp [keepContour, ha]

theorem c5_size_cap_strict_witness :
    ((10 : Int) ≤ 20) ∧ keepContour 100 100 10 ⟨20, ⟨0, 0, 30, 30⟩⟩ = true :=
  ⟨by decide, (c5_size_cap_strict 100 100 10 ⟨20, ⟨0, 0, 30, 30⟩⟩ (by decide)).mpr (by decide)⟩

/-- C6 (counterexample): for the near-square region `(0,0,10,10)` of a
100x100 image the edge clearance is 0, yet the drawn radius is 20: the
20px lower clamp is applied after the bounds clamp and overrides it, so the
final radius can exceed the center-to-edge distance minus 5px. -/
theorem c6_radius_floor_beats_clearance :
    isNearSquareRegion ⟨0, 0, 10, 10⟩ = true ∧
    circleRadius 100 100 ⟨0, 0, 10, 10⟩ = 20 ∧
    edgeClearance 100 100 ⟨0, 0, 10, 10⟩ = 0 ∧
    ¬ circleRadius 100 100 ⟨0, 0, 10, 10⟩ ≤ edgeClearance 100 100 ⟨0, 0, 10, 10⟩ := by
  decide

/-- C6 (amended): for a near-square region the final radius is never below
20px, and it never exceeds the center-to-nearest-edge distance minus the
5px gap whenever that clearance is itself at least 20px (the 20px floor is
applied last and takes precedence when the clearance is smaller). -/
theorem c6_circle_radius_clamped (W H : Int) (r : Rect)
    (_hsq : isNearSquareRegion r = true) :
    20 ≤ circleRadius W H r ∧
    (20 ≤ edgeClearance W H r → circleRadius W H r ≤ edgeClearance W H r) := by
  unfold circleRadius
  omega

theorem c6_circle_radius_clamped_witness :
    isNearSquareRegion (⟨400, 400, 50, 50⟩ : Rect) = true ∧
    20 ≤ circleRadius 1000 1000 ⟨400, 400, 50, 50⟩ ∧
    circleRadius 1000 1000 ⟨400, 400, 50, 50⟩ ≤ edgeClearance 1000 1000 ⟨400, 400, 50, 50⟩ :=
  ⟨by decide,
   (c6_circle_radius_clamped 1000 1000 ⟨400, 400, 50, 50⟩ (by decide)).1,
   (c6_circle_radius_clamped 1000 1000 ⟨400, 400, 50, 50⟩ (by decide)).2 (by decide)⟩

/-- C7 (counterexample): for detected widths `(0, 10)` the reconciliation
returns the full positive width 10, not half of the larger (5) as the claim
demands for pairs that disagree by more than 50%. -/
theorem c7_zero_pair_uses_full_width :
    get_unified_crop 0 10 = 10 ∧ max 0 10 / 2 = 5 := by
  decide

/-- C7 (amended): when both detected widths are positive the reconciliation
takes the smaller if they agree within 50% (`max < 2*min`) and half the
larger otherwise; when at least one width is 0 it takes the larger width
unchanged (so a `(0, positive)` pair is never halved). -/
theorem c7_get_unified_crop_cases (v1 v2 : Nat) :
    (0 < v1 → 0 < v2 →
      get_unified_crop v1 v2 =
        if max v1 v2 < 2 * min v1 v2 then min v1 v2 else max v1 v2 / 2) ∧
    (v1 = 0 ∨ v2 = 0 → get_unified_crop v1 v2 = max v1 v2) := by
  constructor <;> intros <;> unfold get_unified_crop <;> split_ifs <;> omega

theorem c7_get_unified_crop_cases_witness :
    get_unified_crop 4 6 = 4 ∧ get_unified_crop 0 7 = 7 := by
  have h1 := (c7_get_unified_crop_cases 4 6).1 (by decide) (by decide)
  have h2 := (c7_get_unified_crop_cases 0 7).2 (Or.inl rfl)
  constructor
  · simpa using h1
  · simpa using h2

/-- C9: when the input bytes do not decode, `process_screenshot` and
`save_result_images` both stop at the distinct invalid-image error, for
every choice of downstream splitting/detection stages (so no stage runs and
no partial result exists); when the bytes do decode, both functions return
a successful result and the invalid-image error is never produced. -/
theorem c9_decode_failure_fails_fast (decode : List Nat → Option Image)
    (extract : Image → Image × Image) (detect : Image → Image → List Rect)
    (b : List Nat) :
    (decode b = none →
      process_screenshot decode extract detect b = Except.error DiffError.invalidImage ∧
      save_result_images decode extract detect b = Except.error DiffError.invalidImage) ∧
    (∀ img, decode b = some img →
      process_screenshot decode extract detect b =
        Except.ok (detect (extract img).1 (extract img).2,
          (align_images (extract img).1 (extract img).2).1.w,
          (align_images (extract img).1 (extract img).2).1.h) ∧
      save_result_images decode extract detect b =
        Except.ok (detect (extract img).1 (extract img).2,
          (align_images (extract img).1 (extract img).2).1.w,
          (align_images (extract img).1 (extract img).2).1.h)) := by
  constructor
  · intro h
    constructor <;> simp [process_screenshot, save_result_images, load_image_from_bytes, h]
  · intro img h
    constructor <;> simp [process_screenshot, save_result_images, load_image_from_bytes, h]

theorem c9_decode_failure_fails_fast_witness :
    (process_screenshot (fun bs => if bs = [] then none else some ⟨1, 1, fun _ _ => (0, 0, 0)⟩)
        (fun i => (i, i)) (fun _ _ => []) [] = Except.error DiffError.invalidImage) ∧
    (process_screenshot (fun bs => if bs = [] then none else some ⟨1, 1, fun _ _ => (0, 0, 0)⟩)
        (fun i => (i, i)) (fun _ _ => []) [0] ≠ Except.error DiffError.invalidImage) := by
  constructor
  · exact ((c9_decode_failure_fails_fast _ _ _ []).1 (by simp)).1
  · have h := ((c9_decode_failure_fails_fast
      (fun bs => if bs = [] then none else some ⟨1, 1, fun _ _ => (0, 0, 0)⟩)
      (fun i => (i, i)) (fun _ _ => []) [0]).2 ⟨1, 1, fun _ _ => (0, 0, 0)⟩ (by simp)).1
    rw [h]
    simp

/-- C10: `merge_overlapping_regions` is the identity on the empty list and
on any singleton list: expanding by the padding and shrinking back is an
exact round trip and a single rectangle has nothing to merge with. -/
theorem c10_merge_small_lists (r : Rect) (p : Int) :
    merge_overlapping_regions [] p = [] ∧
    merge_overlapping_regions [r] p = [r] := by
  refine ⟨rfl, ?_⟩
  simp [merge_overlapping_regions, mergeLoopAux, mergePass, mergePassAux, absorb,
    shrink_expand]

theorem absorb_rest_length (r : Rect) (l : List Rect) :
    (absorb r l).2.1.length ≤ l.length := by
  induction l generalizing r with
  | nil => simp [absorb]
  | cons s rest ih =>
    simp only [absorb]
    split
    · exact Nat.le_succ_of_le (ih (mergeTwo r s))
    · simpa using ih r

theorem absorb_false (r : Rect) (l : List Rect)
    (h : (absorb r l).2.2 = false) : absorb r l = (r, l, false) := by
  induction l generalizing r with
  | nil => simp [absorb]
  | cons s rest ih =>
    simp only [absorb] at h ⊢
    split at h
    · simp at h
    · rename_i hov
      have h2 : (absorb r rest).2.2 = false := by simpa using h
      rw [if_neg hov, ih r h2]

theorem absorb_true_lt (r : Rect) (l : List Rect)
    (h : (absorb r l).2.2 = true) : (absorb r l).2.1.length < l.length := by
  induction l generalizing r with
  | nil => simp [absorb] at h
  | cons s rest ih =>
    simp only [absorb] at h ⊢
    split at h <;> split
    · have := absorb_rest_length (mergeTwo r s) rest
      simpa using Nat.lt_succ_of_le this
    · simp_all
    · simp_all
    · simpa using ih r h

theorem mergePassAux_fst_length (fuel : Nat) (l : List Rect) :
    (mergePassAux fuel l).1.length ≤ l.length := by
  induction fuel generalizing l with
  | zero => cases l <;> simp [mergePassAux]
  | succ fuel ih =>
    cases l with
    | nil => simp [mergePassAux]
    | cons r rest =>
      simp only [mergePassAux, List.length_cons]
      have h1 := absorb_rest_length r rest
      have h2 := ih (absorb r rest).2.1
      omega

theorem mergePassAux_true_lt (fuel : Nat) (l : List Rect)
    (h : (mergePassAux fuel l).2 = true) :
    (mergePassAux fuel l).1.length < l.length := by
  induction fuel generalizing l with
  | zero => cases l <;> simp [mergePassAux] at h
  | succ fuel ih =>
    cases l with
    | nil => simp [mergePassAux] at h
    | cons r rest =>
      simp only [mergePassAux, List.length_cons, Bool.or_eq_true] at h ⊢
      rcases h with h | h
      · have h1 := absorb_true_lt r rest h
        have h2 := mergePassAux_fst_length fuel (absorb r rest).2.1
        omega
      · have h1 := absorb_rest_length r rest
        have h2 := ih (absorb r rest).2.1 h
        omega

theorem mergePassAux_false_eq (fuel : Nat) (l : List Rect) (hf : l.length ≤ fuel)
    (h : (mergePassAux fuel l).2 = false) : (mergePassAux fuel l).1 = l := by
  induction fuel generalizing l with
  | zero =>
    cases l with
    | nil => simp [mergePassAux]
    | cons r rest => simp at hf
  | succ fuel ih =>
    cases l with
    | nil => simp [mergePassAux]
    | cons r rest =>
      simp only [mergePassAux, Bool.or_eq_false_iff] at h ⊢
      have ha := absorb_false r rest h.1
      rw [ha]
      have hlen : rest.length ≤ fuel := by
        have := List.length_cons r rest ▸ hf
        omega
      have := ih rest (by omega) (by rw [ha] at h; exact h.2)
      rw [this]

/-- Certificate that fuel `l.length` reaches the `while changed` fixed point:
running one more pass on the loop's result changes nothing. -/
theorem mergeLoopAux_fixed (fuel : Nat) (l : List Rect) (hf : l.length ≤ fuel) :
    mergePass (mergeLoopAux fuel l) = (mergeLoopAux fuel l, false) := by
  induction fuel generalizing l with
  | zero =>
    cases l with
    | nil => rfl
    | cons r rest => simp at hf
  | succ fuel ih =>
    simp only [mergeLoopAux]
    rcases h : (mergePass l).2 with _ | _
    · have h1 : (mergePass l).1 = l := mergePassAux_false_eq l.length l le_rfl h
      rw [if_neg (by simp [h])]
      rw [h1]
      exact Prod.ext h1 h
    · rw [if_pos rfl]
      have hlt : (mergePass l).1.length < l.length := mergePassAux_true_lt l.length l h
      exact ih (mergePass l).1 (by omega)

theorem absorb_inv (Q : Rect → Prop) (hQ : ∀ a b, Q a → Q b → Q (mergeTwo a b))
    (r : Rect) (l : List Rect) (hr : Q r) (hl : ∀ s ∈ l, Q s) :
    Q (absorb r l).1 ∧ ∀ s ∈ (absorb r l).2.1, Q s := by
  induction l generalizing r with
  | nil => simpa [absorb] using hr
  | cons s rest ih =>
    have hs : Q s := hl s (by simp)
    have hrest : ∀ t ∈ rest, Q t := fun t ht => hl t (by simp [ht])
    simp only [absorb]
    split
    · exact ih (mergeTwo r s) (hQ r s hr hs) hrest
    · have hres := ih r hr hrest
      refine ⟨hres.1, ?_⟩
      intro t ht
      rcases List.mem_cons.mp ht with rfl | ht
      · exact hs
      · exact hres.2 t ht

theorem mergePassAux_inv (Q : Rect → Prop) (hQ : ∀ a b, Q a → Q b → Q (mergeTwo a b))
    (fuel : Nat) (l : List Rect) (hl : ∀ s ∈ l, Q s) :
    ∀ s ∈ (mergePassAux fuel l).1, Q s := by
  induction fuel generalizing l with
  | zero => cases l with
    | nil => simp [mergePassAux]
    | cons r rest => simpa [mergePassAux] using hl
  | succ fuel ih =>
    cases l with
    | nil => simp [mergePassAux]
    | cons r rest =>
      have hr : Q r := hl r (by simp)
      have hrest : ∀ t ∈ rest, Q t := fun t ht => hl t (by simp [ht])
      have habs := absorb_inv Q hQ r rest hr hrest
      simp only [mergePassAux]
      intro t ht
      rcases List.mem_cons.mp ht with rfl | ht
      · exact habs.1
      · exact ih (absorb r rest).2.1 habs.2 t ht

theorem mergeLoopAux_inv (Q : Rect → Prop) (hQ : ∀ a b, Q a → Q b → Q (mergeTwo a b))
    (fuel : Nat) (l : List Rect) (hl : ∀ s ∈ l, Q s) :
    ∀ s ∈ mergeLoopAux fuel l, Q s := by
  induction fuel generalizing l with
  | zero => simpa [mergeLoopAux] using hl
  | succ fuel ih =>
    simp only [mergeLoopAux]
    split
    · exact ih (mergePass l).1 (mergePassAux_inv Q hQ l.length l hl)
    · exact mergePassAux_inv Q hQ l.length l hl

/-- C2: every rectangle returned by the contour-filter-plus-merge tail of
`find_differences` has positive width and height and lies fully inside the
aligned image, provided every incoming contour bounding rectangle does
(which `cv2.boundingRect` guarantees); the padding expansion and shrink-back
of the merging step preserve the invariant. -/
theorem c2_find_differences_bounds (imgW imgH minArea : Int) (cs : List Contour)
    (hb : ∀ c ∈ cs, rectInBounds imgW imgH c.rect) :
    ∀ r ∈ find_differences_post imgW imgH minArea cs, rectInBounds imgW imgH r := by
  intro r hr
  unfold find_differences_post merge_overlapping_regions at hr
  by_cases he : (contourFilter imgW imgH minArea cs).isEmpty
  · simp [he] at hr
  · rw [if_neg he] at hr
    obtain ⟨e, he2, rfl⟩ := List.mem_map.mp hr
    have hQc : ∀ a b,
        (fun t : Rect => -20 ≤ t.x ∧ -20 ≤ t.y ∧ 40 < t.w ∧ 40 < t.h ∧
          t.x + t.w ≤ imgW + 20 ∧ t.y + t.h ≤ imgH + 20) a →
        (fun t : Rect => -20 ≤ t.x ∧ -20 ≤ t.y ∧ 40 < t.w ∧ 40 < t.h ∧
          t.x + t.w ≤ imgW + 20 ∧ t.y + t.h ≤ imgH + 20) b →
        (fun t : Rect => -20 ≤ t.x ∧ -20 ≤ t.y ∧ 40 < t.w ∧ 40 < t.h ∧
          t.x + t.w ≤ imgW + 20 ∧ t.y + t.h ≤ imgH + 20) (mergeTwo a b) := by
      intro a b ha hbq
      simp only [mergeTwo] at *
      omega
    have hmap : ∀ t ∈ (contourFilter imgW imgH minArea cs).map (expandRect 20),
        -20 ≤ t.x ∧ -20 ≤ t.y ∧ 40 < t.w ∧ 40 < t.h ∧
          t.x + t.w ≤ imgW + 20 ∧ t.y + t.h ≤ imgH + 20 := by
      intro t ht
      obtain ⟨u, hu, rfl⟩ := List.mem_map.mp ht
      obtain ⟨c, hc, rfl⟩ := List.mem_map.mp hu
      have hcin := hb c (List.mem_of_mem_filter hc)
      unfold rectInBounds at hcin
      simp only [expandRect]
      omega
    have hq := mergeLoopAux_inv _ hQc (contourFilter imgW imgH minArea cs).length
      ((contourFilter imgW imgH minArea cs).map (expandRect 20)) hmap e he2
    unfold rectInBounds
    simp only [shrinkRect]
    simp only at hq
    omega

theorem c2_find_differences_bounds_witness :
    (∀ c ∈ [(⟨100, ⟨30, 30, 10, 10⟩⟩ : Contour), ⟨100, ⟨45, 30, 10, 10⟩⟩],
      rectInBounds 200 200 c.rect) ∧
    rectInBounds 200 200 ⟨30, 30, 25, 10⟩ :=
  ⟨by decide,
   c2_find_differences_bounds 200 200 50
     [⟨100, ⟨30, 30, 10, 10⟩⟩, ⟨100, ⟨45, 30, 10, 10⟩⟩] (by decide)
     ⟨30, 30, 25, 10⟩ (by decide)⟩

theorem getD_of_lt (l : List Bool) (i : Nat) (hi : i < l.length) (d : Bool) :
    l.getD i d = l[i] := by
  simp [List.getD_eq_getElem?_getD, List.getElem?_eq_getElem hi]

/-- Invariant characterization of the row state machine of
`extract_game_images`: from row `y` on, with `in_content`/`content_start`
state `(inC, start)`, the regions still to be emitted are exactly the
maximal content runs that pass the 15% filter and either are the run
currently being tracked or start at row `y` or later. -/
theorem scanRegions_spec (rows : List Bool) (rest : List Bool) (y : Nat) (inC : Bool)
    (start : Nat) (hdrop : rows.drop y = rest) (hy : y ≤ rows.length)
    (hinT : inC = true → start < y ∧ (∀ i, i < y → start ≤ i → rows.getD i false = true) ∧
      (start = 0 ∨ rows.getD (start - 1) true = false))
    (hinF : inC = false → y = 0 ∨ rows.getD (y - 1) true = false) (s e : Nat) :
    (s, e) ∈ scanRegions rows.length rest y inC start ↔
      isMaxRun rows s e ∧ regionKeep rows.length (e - s) = true ∧
        cond inC (s = start ∨ y ≤ s) (y ≤ s) := by
  induction rest generalizing y inC start with
  | nil =>
    have hyl : rows.length ≤ y := by
      have := List.drop_eq_nil_iff.mp hdrop
      omega
    have hye : y = rows.length := by omega
    subst hye
    rcases inC with _ | _
    · simp only [scanRegions, Bool.false_and, if_neg (by simp : ¬(false = true)), cond_false]
      simp only [List.not_mem_nil, false_iff]
      rintro ⟨⟨h1, h2, _⟩, _, h3⟩
      omega
    · obtain ⟨hst, hint, hbd⟩ := hinT rfl
      have key : ∀ e', isMaxRun rows start e' → e' = rows.length := by
        intro e' h1
        by_contra hne
        have helt : e' < rows.length := lt_of_le_of_ne h1.2.1 hne
        rcases h1.2.2.2.2 with h5 | h5
        · exact hne h5
        · have ht := hint e' helt (le_of_lt h1.1)
          rw [getD_of_lt _ _ helt] at ht h5
          rw [ht] at h5
          simp at h5
      simp only [scanRegions, Bool.true_and, cond_true]
      by_cases hk : regionKeep rows.length (rows.length - start) = true
      · rw [if_pos hk]
        simp only [List.mem_singleton, Prod.mk.injEq]
        constructor
        · rintro ⟨rfl, rfl⟩
          refine ⟨⟨hst, le_rfl, fun i h1 h2 => hint i h1 h2, hbd, Or.inl rfl⟩, hk, Or.inl rfl⟩
        · rintro ⟨h1, h2, h3⟩
          rcases h3 with rfl | h3
          · exact ⟨rfl, key e h1⟩
          · exfalso
            have := h1.1
            have := h1.2.1
            omega
      · rw [if_neg hk]
        simp only [List.not_mem_nil, false_iff]
        rintro ⟨h1, h2, h3⟩
        rcases h3 with rfl | h3
        · rw [key e h1] at h2
          exact hk h2
        · have := h1.1
          have := h1.2.1
          omega
  | cons b rest' ih =>
    have hylt : y < rows.length := by
      rcases Nat.lt_or_ge y rows.length with h | h
      · exact h
      · rw [List.drop_eq_nil_of_le h] at hdrop
        exact absurd hdrop (by simp)
    have hcons := List.drop_eq_getElem_cons hylt
    rw [hcons] at hdrop
    injection hdrop with hb hdrop'
    rcases inC with _ | _ <;> rcases b with _ | _
    · -- inC = false, b = false: stay out of content
      simp only [scanRegions, Bool.and_self, Bool.false_and, Bool.and_false,
        if_neg (by simp : ¬(false = true)), cond_false]
      rw [ih (y + 1) false start hdrop' (by omega) (fun h => by simp at h)
        (fun _ => Or.inr (by rw [Nat.add_sub_cancel, getD_of_lt _ _ hylt, hb]))]
      simp only [cond_false]
      constructor <;> rintro ⟨h1, h2, h3⟩ <;> refine ⟨h1, h2, ?_⟩
      · omega
      · have hsne : s ≠ y := by
          intro hEq
          subst hEq
          have ht := h1.2.2.1 s h1.1 le_rfl
          rw [getD_of_lt _ _ hylt, hb] at ht
          simp at ht
        omega
    · -- inC = false, b = true: a run starts at row y
      simp only [scanRegions, Bool.not_false, Bool.and_true, Bool.true_and,
        decide_True, if_true, cond_false]
      rw [ih (y + 1) true y hdrop' (by omega)
        (fun _ => ⟨by omega,
          fun i h1 h2 => by
            have : i = y := by omega
            subst this
            rw [getD_of_lt _ _ hylt, hb],
          hinF rfl⟩)
        (fun h => by simp at h)]
      simp only [cond_true]
      constructor <;> rintro ⟨h1, h2, h3⟩ <;> exact ⟨h1, h2, by omega⟩
    · -- inC = true, b = false: the tracked run ends at row y
      simp only [scanRegions, Bool.not_true, Bool.and_false, Bool.false_and,
        if_neg (by simp : ¬(false = true)), Bool.not_false, Bool.true_and,
        Bool.and_true, if_true, cond_true]
      obtain ⟨hst, hint, hbd⟩ := hinT rfl
      have hes : ∀ e', isMaxRun rows start e' → e' = y := by
        intro e' h1
        by_contra hne
        rcases Nat.lt_or_ge e' y with hlt | hgt
        · rcases h1.2.2.2.2 with h5 | h5
          · omega
          · have ht := hint e' hlt (le_of_lt h1.1)
            rw [getD_of_lt _ _ (by omega)] at ht h5
            rw [ht] at h5
            simp at h5
        · have hgt2 : y < e' := by omega
          have ht := h1.2.2.1 y hgt2 (by omega)
          rw [getD_of_lt _ _ hylt, hb] at ht
          simp at ht
      rw [List.mem_append]
      rw [ih (y + 1) false start hdrop' (by omega) (fun h => by simp at h)
        (fun _ => Or.inr (by rw [Nat.add_sub_cancel, getD_of_lt _ _ hylt, hb]))]
      simp only [cond_false]
      constructor
      · rintro (hmem | ⟨h1, h2, h3⟩)
        · by_cases hk : regionKeep rows.length (y - start) = true
          · rw [if_pos hk] at hmem
            simp only [List.mem_singleton, Prod.mk.injEq] at hmem
            obtain ⟨rfl, rfl⟩ := hmem
            refine ⟨⟨hst, by omega, fun i h1 h2 => hint i h1 h2, hbd,
              Or.inr (by rw [getD_of_lt _ _ hylt, hb])⟩, hk, Or.inl rfl⟩
          · rw [if_neg hk] at hmem
            simp at hmem
        · exact ⟨h1, h2, Or.inr (by omega)⟩
      · rintro ⟨h1, h2, h3⟩
        rcases h3 with rfl | h3
        · left
          rw [hes e h1] at h2 ⊢
          rw [if_pos h2]
          simp
        · right
          have hsne : s ≠ y := by
            intro hEq
            subst hEq
            have ht := h1.2.2.1 s h1.1 le_rfl
            rw [getD_of_lt _ _ hylt, hb] at ht
            simp at ht
          exact ⟨h1, h2, by omega⟩
    · -- inC = true, b = true: the tracked run continues
      simp only [scanRegions, Bool.not_true, Bool.and_false, Bool.false_and,
        if_neg (by simp : ¬(false = true)), cond_true]
      obtain ⟨hst, hint, hbd⟩ := hinT rfl
      rw [ih (y + 1) true start hdrop' (by omega)
        (fun _ => ⟨by omega,
          fun i h1 h2 => by
            rcases Nat.lt_or_ge i y with h4 | h4
            · exact hint i h4 h2
            · have : i = y := by omega
              subst this
              rw [getD_of_lt _ _ hylt, hb],
          hbd⟩)
        (fun h => by simp at h)]
      simp only [cond_true]
      constructor <;> rintro ⟨h1, h2, h3⟩ <;> refine ⟨h1, h2, ?_⟩
      · omega
      · rcases h3 with h3 | h3
        · exact Or.inl h3
        · right
          have hsne : s ≠ y := by
            intro hEq
            subst hEq
            rcases h1.2.2.2.1 with h4 | h4
            · omega
            · have h5 := hint (s - 1) (by omega) (by omega)
              rw [getD_of_lt _ _ (by omega)] at h4 h5
              rw [h5] at h4
              simp at h4
          omega

/-- C8 (amended): a pair `(s, e)` is recorded as a content region by the
scan of `extract_game_images` exactly when `[s, e)` is a maximal run of
consecutive content rows whose length is STRICTLY greater than 15% of the
image height; a run of length exactly 15% of the height is discarded. -/
theorem c8_content_regions_runs (rows : List Bool) (s e : Nat) :
    (s, e) ∈ content_regions rows ↔
      isMaxRun rows s e ∧ regionKeep rows.length (e - s) = true := by
  rw [content_regions,
    scanRegions_spec rows rows 0 false 0 (by simp) (by omega)
      (fun h => by simp at h) (fun _ => Or.inl rfl) s e]
  simp

/-- C8 (counterexample): in a 20-row image a maximal content run of exactly
3 rows — exactly 15% of the height — is discarded, because the source keeps
a run only when strictly `region_height > height * 0.15`. -/
theorem c8_exact_fifteen_percent_discarded :
    isMaxRun (List.replicate 3 true ++ List.replicate 17 false) 0 3 ∧
    (0, 3) ∉ content_regions (List.replicate 3 true ++ List.replicate 17 false) := by
  decide
